import Mathlib

/-!
Verification of the gitchain proposal-consensus core.

The definitions below are a shallow embedding of the two Solidity contracts
`ReviewerRegistry` and `ProposalManager` and of the TypeScript merge bridge
(`bridge.ts`).  Addresses are modelled as natural numbers (0 is the zero
address), `uint256` as `Nat`, Solidity mappings as Lean functions with the
zero-value default, and the vote mapping as the list of successfully inserted
`(proposalId, voter, approve)` entries.  Each external contract function is a
total Lean function returning `Except Err ...`; a `require` failure is an
`Except.error`, which reverts every state change, exactly as on the EVM.
-/

namespace Gitchain

/-- Proposal lifecycle states, mirroring `enum ProposalState` in
`ProposalManager.sol` (Open = 0, Approved = 1, Rejected = 2, Merged = 3). -/
inductive ProposalState where
  | Open
  | Approved
  | Rejected
  | Merged
deriving DecidableEq, Repr

/-- The `Proposal` struct of `ProposalManager.sol` (voters are tracked
separately, in the `_votes` mapping). -/
structure Proposal where
  id : Nat
  repoId : String
  branchName : String
  commitHash : String
  description : String
  proposer : Nat
  state : ProposalState
  approvalCount : Nat
  rejectionCount : Nat
  mergedCommitHash : String
deriving DecidableEq, Repr

/-- The Solidity zero value of the `Proposal` struct (what an unwritten
mapping slot holds). -/
def Proposal.zero : Proposal :=
  { id := 0, repoId := "", branchName := "", commitHash := "", description := ""
    proposer := 0, state := ProposalState.Open, approvalCount := 0
    rejectionCount := 0, mergedCommitHash := "" }

/-- The `Agent` struct of `ReviewerRegistry.sol`. -/
structure Agent where
  name : String
  publicKey : String
  isActive : Bool
deriving DecidableEq, Repr

/-- Zero value of `Agent` (unwritten mapping slot). -/
def Agent.zero : Agent := { name := "", publicKey := "", isActive := false }

/-- Point update of a mapping modelled as a function. -/
def writeAt {α : Type} (f : Nat → α) (k : Nat) (v : α) : Nat → α :=
  fun x => if x = k then v else f x

/-- Storage of `ReviewerRegistry`: owner, the `_agents` mapping and the
append-only `_reviewerList` array. -/
structure RegistryState where
  owner : Nat
  agents : Nat → Agent
  reviewerList : List Nat

/-- Combined storage of the deployed system: the registry the
`ProposalManager` points at, the immutable `approvalThreshold`,
`proposalCount`, the `_proposals` mapping, and the `_votes` mapping
represented by its list of inserted `(proposalId, voter, approve)` entries
(the recorded direction of each vote is carried along; `_votes[p][v]` is
membership of `(p, v)`). -/
structure ChainState where
  reg : RegistryState
  approvalThreshold : Nat
  proposalCount : Nat
  proposals : Nat → Proposal
  votes : List (Nat × Nat × Bool)

/-- The error taxonomy; each constructor corresponds to one `require`
message in the contracts. -/
inductive Err where
  | Unauthorized
  | InvalidInput
  | AlreadyRegistered
  | NotAReviewer
  | AlreadyVoted
  | NotOpen
  | NotApproved
  | NotFound
deriving DecidableEq, Repr

/-- Events emitted by the contracts. -/
inductive Event where
  | ReviewerRegistered (wallet : Nat) (name : String)
  | ReviewerRemoved (wallet : Nat)
  | ProposalCreated (id proposer : Nat) (branchName commitHash : String)
  | VoteRecorded (id voter : Nat) (approved : Bool)
  | MergeApproved (id : Nat) (branchName commitHash : String)
  | MergeRecorded (id : Nat) (mergedCommitHash : String)
deriving DecidableEq, Repr

/-- `ReviewerRegistry.registerReviewer`: only owner; rejects the zero
address, an empty name, and a currently active wallet; otherwise writes the
agent record, appends to the historical list and emits
`ReviewerRegistered`. -/
def registerReviewer (st : RegistryState) (sender wallet : Nat)
    (name publicKey : String) : Except Err (RegistryState × List Event) :=
  if sender = st.owner then
    if wallet = 0 then Except.error Err.InvalidInput
    else if name = "" then Except.error Err.InvalidInput
    else if (st.agents wallet).isActive then Except.error Err.AlreadyRegistered
    else
      Except.ok
        ({ st with
            agents := writeAt st.agents wallet
              { name := name, publicKey := publicKey, isActive := true }
            reviewerList := st.reviewerList ++ [wallet] },
         [Event.ReviewerRegistered wallet name])
  else Except.error Err.Unauthorized

/-- `ReviewerRegistry.removeReviewer`: only owner; the wallet must be
active; flips `isActive` to false (soft delete) and emits
`ReviewerRemoved`. -/
def removeReviewer (st : RegistryState) (sender wallet : Nat) :
    Except Err (RegistryState × List Event) :=
  if sender = st.owner then
    if (st.agents wallet).isActive then
      Except.ok
        ({ st with
            agents := writeAt st.agents wallet
              { st.agents wallet with isActive := false } },
         [Event.ReviewerRemoved wallet])
    else Except.error Err.NotAReviewer
  else Except.error Err.Unauthorized

/-- `ReviewerRegistry.isReviewer`. -/
def isReviewer (st : RegistryState) (wallet : Nat) : Bool :=
  (st.agents wallet).isActive

/-- `ProposalManager.createProposal`: rejects empty `repoId`, `branchName`
or `commitHash`; otherwise assigns id `proposalCount`, stores a fresh Open
proposal with zero counts and empty `mergedCommitHash`, increments the
count and emits `ProposalCreated`.  Any sender is accepted. -/
def createProposal (st : ChainState) (sender : Nat)
    (repoId branchName commitHash description : String) :
    Except Err (Nat × ChainState × List Event) :=
  if repoId = "" then Except.error Err.InvalidInput
  else if branchName = "" then Except.error Err.InvalidInput
  else if commitHash = "" then Except.error Err.InvalidInput
  else
    let id := st.proposalCount
    let p : Proposal :=
      { id := id, repoId := repoId, branchName := branchName
        commitHash := commitHash, description := description, proposer := sender
        state := ProposalState.Open, approvalCount := 0, rejectionCount := 0
        mergedCommitHash := "" }
    Except.ok
      (id,
       { st with proposalCount := id + 1, proposals := writeAt st.proposals id p },
       [Event.ProposalCreated id sender branchName commitHash])

/-- `ProposalManager.hasVoted`: reads the `_votes` mapping; no `require`,
so it is total and never reverts. -/
def hasVoted (st : ChainState) (pid voter : Nat) : Bool :=
  st.votes.any (fun v => v.1 == pid && v.2.1 == voter)

/-- `ProposalManager.vote`: guards in contract order (id range, active
reviewer, not yet voted, proposal Open); then records the vote, increments
the matching counter, emits `VoteRecorded`, and, if the updated
`approvalCount` reaches the threshold, flips the state to Approved and
emits `MergeApproved` within the same transaction. -/
def vote (st : ChainState) (sender pid : Nat) (approve : Bool) :
    Except Err (ChainState × List Event) :=
  if pid < st.proposalCount then
    if isReviewer st.reg sender then
      if hasVoted st pid sender then Except.error Err.AlreadyVoted
      else
        let p := st.proposals pid
        if p.state = ProposalState.Open then
          let p1 := if approve then { p with approvalCount := p.approvalCount + 1 }
                    else { p with rejectionCount := p.rejectionCount + 1 }
          let votes1 := st.votes ++ [(pid, sender, approve)]
          if st.approvalThreshold ≤ p1.approvalCount then
            Except.ok
              ({ st with
                  proposals := writeAt st.proposals pid
                    { p1 with state := ProposalState.Approved }
                  votes := votes1 },
               [Event.VoteRecorded pid sender approve,
                Event.MergeApproved pid p.branchName p.commitHash])
          else
            Except.ok
              ({ st with proposals := writeAt st.proposals pid p1, votes := votes1 },
               [Event.VoteRecorded pid sender approve])
        else Except.error Err.NotOpen
    else Except.error Err.NotAReviewer
  else Except.error Err.NotFound

/-- `ProposalManager.recordMerge`: guards in contract order (id range,
state Approved, non-empty hash); flips the state to Merged, stores the
merged hash and emits `MergeRecorded`.  Callable by anyone — the sender is
ignored. -/
def recordMerge (st : ChainState) (_sender pid : Nat)
    (mergedCommitHash : String) : Except Err (ChainState × List Event) :=
  if pid < st.proposalCount then
    let p := st.proposals pid
    if p.state = ProposalState.Approved then
      if mergedCommitHash = "" then Except.error Err.InvalidInput
      else
        Except.ok
          ({ st with
              proposals := writeAt st.proposals pid
                { p with state := ProposalState.Merged
                         mergedCommitHash := mergedCommitHash } },
           [Event.MergeRecorded pid mergedCommitHash])
    else Except.error Err.NotApproved
  else Except.error Err.NotFound

/-- `ProposalManager.getProposal`: rejects an out-of-range id, otherwise
returns the stored proposal (the flat `ProposalInfo` copies every field). -/
def getProposal (st : ChainState) (pid : Nat) : Except Err Proposal :=
  if pid < st.proposalCount then Except.ok (st.proposals pid)
  else Except.error Err.NotFound

/-- One external transaction against the deployed system. -/
inductive Op where
  | register (sender wallet : Nat) (name publicKey : String)
  | deactivate (sender wallet : Nat)
  | create (sender : Nat) (repoId branchName commitHash description : String)
  | castVote (sender pid : Nat) (approve : Bool)
  | record (sender pid : Nat) (mergedCommitHash : String)

/-- Executes one transaction.  A reverted transaction leaves the state
unchanged and emits nothing (EVM revert semantics). -/
def step (st : ChainState) (op : Op) : ChainState × List Event :=
  match op with
  | Op.register s w n k =>
      match registerReviewer st.reg s w n k with
      | Except.ok (r, evs) => ({ st with reg := r }, evs)
      | Except.error _ => (st, [])
  | Op.deactivate s w =>
      match removeReviewer st.reg s w with
      | Except.ok (r, evs) => ({ st with reg := r }, evs)
      | Except.error _ => (st, [])
  | Op.create s r b c d =>
      match createProposal st s r b c d with
      | Except.ok (_, st1, evs) => (st1, evs)
      | Except.error _ => (st, [])
  | Op.castVote s pid a =>
      match vote st s pid a with
      | Except.ok (st1, evs) => (st1, evs)
      | Except.error _ => (st, [])
  | Op.record s pid h =>
      match recordMerge st s pid h with
      | Except.ok (st1, evs) => (st1, evs)
      | Except.error _ => (st, [])

/-- Runs a sequence of transactions. -/
def run (st : ChainState) (ops : List Op) : ChainState :=
  ops.foldl (fun s op => (step s op).1) st

/-- State right after deployment: the registry deployed by `owner`, then
the manager constructed over it with the given threshold (the constructor
requires `threshold > 0`). -/
def initState (owner threshold : Nat) : ChainState :=
  { reg := { owner := owner, agents := fun _ => Agent.zero, reviewerList := [] }
    approvalThreshold := threshold
    proposalCount := 0
    proposals := fun _ => Proposal.zero
    votes := [] }

/-- States reachable from a valid deployment by some transaction
sequence. -/
def reachable (st : ChainState) : Prop :=
  ∃ owner threshold ops,
    0 < threshold ∧ st = run (initState owner threshold) ops

/-- Number of approve votes recorded for proposal `pid`. -/
def countApprove (l : List (Nat × Nat × Bool)) (pid : Nat) : Nat :=
  l.countP (fun v => v.1 == pid && v.2.2)

/-- Number of reject votes recorded for proposal `pid`. -/
def countReject (l : List (Nat × Nat × Bool)) (pid : Nat) : Nat :=
  l.countP (fun v => v.1 == pid && !v.2.2)

/-- The state of proposal `i`, or `none` when `i` is not an assigned id. -/
def stateOf (st : ChainState) (i : Nat) : Option ProposalState :=
  if i < st.proposalCount then some (st.proposals i).state else none

/-- Side effects the bridge performs against the outside world. -/
inductive BridgeAction where
  | merge (repoId branchName : String)
  | record (pid : Nat) (mergedCommitHash : String)
deriving DecidableEq, Repr

/-- The `MergeApproved` listener of `bridge.ts`: inside one try/catch it
fetches the proposal (to read `repoId`), runs `mergeBranch` on the real
repository, and on merge success calls `recordMerge` on-chain; any thrown
error (proposal lookup, merge failure, `recordMerge` revert) is caught and
only logged.  `mergeResult` stands for the outcome of the external
`mergeBranch` call (`none` = the merge threw, `some h` = merged as `h`);
the returned list records which external actions were invoked. -/
def bridgeOnMergeApproved (st : ChainState) (pid : Nat) (branchName : String)
    (mergeResult : Option String) : ChainState × List BridgeAction :=
  match getProposal st pid with
  | Except.error _ => (st, [])
  | Except.ok p =>
      match mergeResult with
      | none => (st, [BridgeAction.merge p.repoId branchName])
      | some h =>
          match recordMerge st 0 pid h with
          | Except.ok (st1, _) =>
              (st1, [BridgeAction.merge p.repoId branchName,
                     BridgeAction.record pid h])
          | Except.error _ =>
              (st, [BridgeAction.merge p.repoId branchName,
                    BridgeAction.record pid h])

/-- The state and events a successful `vote` produces (the tail of `vote`
after its four guards); proved equal to the result of `vote` in
`vote_eq_ok`. -/
def voteResult (st : ChainState) (sender pid : Nat) (approve : Bool) :
    ChainState × List Event :=
  let p := st.proposals pid
  let p1 := if approve then { p with approvalCount := p.approvalCount + 1 }
            else { p with rejectionCount := p.rejectionCount + 1 }
  let votes1 := st.votes ++ [(pid, sender, approve)]
  if st.approvalThreshold ≤ p1.approvalCount then
    ({ st with
        proposals := writeAt st.proposals pid
          { p1 with state := ProposalState.Approved }
        votes := votes1 },
     [Event.VoteRecorded pid sender approve,
      Event.MergeApproved pid p.branchName p.commitHash])
  else
    ({ st with proposals := writeAt st.proposals pid p1, votes := votes1 },
     [Event.VoteRecorded pid sender approve])

/-- The ledger invariant maintained by every transaction: a positive
threshold, vote entries only for assigned ids, at most one vote per
`(proposal, voter)` pair, Open proposals strictly below the threshold,
counters agreeing with the recorded votes, `mergedCommitHash` set exactly
on Merged proposals, and the Rejected state never assigned. -/
structure Inv (st : ChainState) : Prop where
  thrPos : 0 < st.approvalThreshold
  voteBound : ∀ v ∈ st.votes, v.1 < st.proposalCount
  voteNodup : (st.votes.map (fun v => (v.1, v.2.1))).Nodup
  openBelow : ∀ i, i < st.proposalCount →
    (st.proposals i).state = ProposalState.Open →
    (st.proposals i).approvalCount < st.approvalThreshold
  approvalAcc : ∀ i, i < st.proposalCount →
    (st.proposals i).approvalCount = countApprove st.votes i
  rejectionAcc : ∀ i, i < st.proposalCount →
    (st.proposals i).rejectionCount = countReject st.votes i
  mergedIff : ∀ i, i < st.proposalCount →
    ((st.proposals i).mergedCommitHash ≠ "" ↔
      (st.proposals i).state = ProposalState.Merged)
  notRejected : ∀ i, i < st.proposalCount →
    (st.proposals i).state ≠ ProposalState.Rejected

/-- The effect of one successful `vote` transaction: the `(proposalId,
voter)` pair is recorded, the matching counter is incremented, and the
state flips to Approved with a `MergeApproved` emission exactly when the
updated `approvalCount` reaches the threshold. -/
def VoteOutcome (st : ChainState) (sender pid : Nat) (approve : Bool) :
    Prop :=
  ∃ st1 evs, vote st sender pid approve = Except.ok (st1, evs) ∧
    hasVoted st1 pid sender = true ∧
    (st1.proposals pid).approvalCount =
      (st.proposals pid).approvalCount + (if approve then 1 else 0) ∧
    (st1.proposals pid).rejectionCount =
      (st.proposals pid).rejectionCount + (if approve then 0 else 1) ∧
    (((st1.proposals pid).state = ProposalState.Approved ∧
        Event.MergeApproved pid (st.proposals pid).branchName
          (st.proposals pid).commitHash ∈ evs) ↔
      st.approvalThreshold ≤ (st1.proposals pid).approvalCount)

/-- Concrete scenario: owner 0 deploys with threshold 2, registers
reviewers 1 (Alice) and 2 (Bob), and wallet 5 pushes one proposal. -/
def opsA : List Op :=
  [Op.register 0 1 "Alice" "pk1", Op.register 0 2 "Bob" "pk2",
   Op.create 5 "repo" "feature" "c1" "desc"]

/-- State after `opsA`: proposal 0 is Open with zero counts. -/
def stA : ChainState := run (initState 0 2) opsA

/-- `opsA` followed by approve votes from reviewers 1 and 2. -/
def opsB : List Op := opsA ++ [Op.castVote 1 0 true, Op.castVote 2 0 true]

/-- State after `opsB`: proposal 0 is Approved with two approvals. -/
def stB : ChainState := run (initState 0 2) opsB

/-- `opsB` followed by the bridge recording the merge. -/
def opsC : List Op := opsB ++ [Op.record 0 0 "m1"]

/-- State after `opsC`: proposal 0 is Merged as commit `m1`. -/
def stC : ChainState := run (initState 0 2) opsC

/-- Registry in which reviewer 1 was registered and then deactivated. -/
def regD : RegistryState :=
  (run (initState 0 2) (opsA ++ [Op.deactivate 0 1])).reg

theorem writeAt_self {α : Type} (f : Nat → α) (k : Nat) (v : α) :
    writeAt f k v k = v := by
  simp [writeAt]

theorem writeAt_ne {α : Type} (f : Nat → α) (k : Nat) (v : α) (x : Nat)
    (h : x ≠ k) : writeAt f k v x = f x := by
  simp [writeAt, h]

theorem inv_init (owner threshold : Nat) (h : 0 < threshold) :
    Inv (initState owner threshold) := by
  constructor <;> simp [initState]
  exact h

theorem inv_regOnly (st : ChainState) (r : RegistryState) (h : Inv st) :
    Inv { st with reg := r } := by
  obtain ⟨h1, h2, h3, h4, h5, h6, h7, h8⟩ := h
  exact ⟨h1, h2, h3, h4, h5, h6, h7, h8⟩

theorem countApprove_out (l : List (Nat × Nat × Bool)) (pid : Nat)
    (h : ∀ v ∈ l, v.1 < pid) : countApprove l pid = 0 := by
  rw [countApprove, List.countP_eq_zero]
  intro v hv
  have := h v hv
  simp only [Bool.and_eq_true, beq_iff_eq]
  rintro ⟨rfl, -⟩
  exact absurd this (lt_irrefl _)

theorem countReject_out (l : List (Nat × Nat × Bool)) (pid : Nat)
    (h : ∀ v ∈ l, v.1 < pid) : countReject l pid = 0 := by
  rw [countReject, List.countP_eq_zero]
  intro v hv
  have := h v hv
  simp only [Bool.and_eq_true, beq_iff_eq]
  rintro ⟨rfl, -⟩
  exact absurd this (lt_irrefl _)

theorem inv_create (st : ChainState) (sender : Nat)
    (repoId branchName commitHash description : String)
    (res : Nat × ChainState × List Event) (hInv : Inv st)
    (h : createProposal st sender repoId branchName commitHash description =
      Except.ok res) : Inv res.2.1 := by
  unfold createProposal at h
  split at h
  · simp at h
  split at h
  · simp at h
  split at h
  · simp at h
  obtain ⟨hThr, hB, hN, hO, hA, hR, hM, hRej⟩ := hInv
  cases h
  dsimp only
  constructor <;> dsimp only
  · exact hThr
  · intro v hv
    exact Nat.lt_succ_of_lt (hB v hv)
  · exact hN
  · intro i hi hOpen
    rcases Nat.lt_succ_iff_lt_or_eq.mp hi with hi' | rfl
    · rw [writeAt_ne _ _ _ _ (Nat.ne_of_lt hi')] at hOpen ⊢
      exact hO i hi' hOpen
    · rw [writeAt_self]
      exact hThr
  · intro i hi
    rcases Nat.lt_succ_iff_lt_or_eq.mp hi with hi' | rfl
    · rw [writeAt_ne _ _ _ _ (Nat.ne_of_lt hi')]
      exact hA i hi'
    · rw [writeAt_self, countApprove_out _ _ hB]
  · intro i hi
    rcases Nat.lt_succ_iff_lt_or_eq.mp hi with hi' | rfl
    · rw [writeAt_ne _ _ _ _ (Nat.ne_of_lt hi')]
      exact hR i hi'
    · rw [writeAt_self, countReject_out _ _ hB]
  · intro i hi
    rcases Nat.lt_succ_iff_lt_or_eq.mp hi with hi' | rfl
    · rw [writeAt_ne _ _ _ _ (Nat.ne_of_lt hi')]
      exact hM i hi'
    · rw [writeAt_self]
      simp
  · intro i hi
    rcases Nat.lt_succ_iff_lt_or_eq.mp hi with hi' | rfl
    · rw [writeAt_ne _ _ _ _ (Nat.ne_of_lt hi')]
      exact hRej i hi'
    · rw [writeAt_self]
      simp

theorem countApprove_snoc (l : List (Nat × Nat × Bool)) (i : Nat)
    (v : Nat × Nat × Bool) :
    countApprove (l ++ [v]) i =
      countApprove l i + (if v.1 == i && v.2.2 then 1 else 0) := by
  simp [countApprove, List.countP_append, List.countP_singleton]

theorem countReject_snoc (l : List (Nat × Nat × Bool)) (i : Nat)
    (v : Nat × Nat × Bool) :
    countReject (l ++ [v]) i =
      countReject l i + (if v.1 == i && !v.2.2 then 1 else 0) := by
  simp [countReject, List.countP_append, List.countP_singleton]

theorem hasVoted_false_not_mem (st : ChainState) (pid sender : Nat)
    (h : hasVoted st pid sender = false) :
    (pid, sender) ∉ st.votes.map (fun v => (v.1, v.2.1)) := by
  intro hmem
  rw [List.mem_map] at hmem
  obtain ⟨v, hv, hEq⟩ := hmem
  rw [hasVoted, List.any_eq_false] at h
  apply h v hv
  have h1 : v.1 = pid := congrArg Prod.fst hEq
  have h2 : v.2.1 = sender := congrArg Prod.snd hEq
  simp [h1, h2]

theorem countApprove_snoc_ne (l : List (Nat × Nat × Bool)) (i pid s : Nat)
    (b : Bool) (h : i ≠ pid) :
    countApprove (l ++ [(pid, s, b)]) i = countApprove l i := by
  rw [countApprove_snoc]
  have : (pid == i) = false := by simp [Ne.symm h]
  simp [this]

theorem countReject_snoc_ne (l : List (Nat × Nat × Bool)) (i pid s : Nat)
    (b : Bool) (h : i ≠ pid) :
    countReject (l ++ [(pid, s, b)]) i = countReject l i := by
  rw [countReject_snoc]
  have : (pid == i) = false := by simp [Ne.symm h]
  simp [this]

theorem inv_vote_final (st : ChainState) (sender pid : Nat) (approve : Bool)
    (p2 : Proposal) (hInv : Inv st) (hpid : pid < st.proposalCount)
    (hvoted : hasVoted st pid sender = false)
    (hstate : p2.state = ProposalState.Approved ∨
      p2.state = ProposalState.Open)
    (hopenB : p2.state = ProposalState.Open →
      p2.approvalCount < st.approvalThreshold)
    (hac : p2.approvalCount =
      countApprove (st.votes ++ [(pid, sender, approve)]) pid)
    (hrc : p2.rejectionCount =
      countReject (st.votes ++ [(pid, sender, approve)]) pid)
    (hmc : p2.mergedCommitHash = "") :
    Inv { st with proposals := writeAt st.proposals pid p2
                  votes := st.votes ++ [(pid, sender, approve)] } := by
  obtain ⟨hThr, hB, hN, hO, hA, hR, hM, hRej⟩ := hInv
  constructor <;> dsimp only
  · exact hThr
  · intro v hv
    rcases List.mem_append.mp hv with hv | hv
    · exact hB v hv
    · simp only [List.mem_singleton] at hv
      subst hv
      exact hpid
  · rw [List.map_append, List.nodup_append]
    refine ⟨hN, List.nodup_singleton _, ?_⟩
    intro x hx hx1
    simp only [List.map_cons, List.map_nil, List.mem_singleton] at hx1
    subst hx1
    exact hasVoted_false_not_mem st pid sender hvoted hx
  · intro i hi hsi
    by_cases hip : i = pid
    · subst hip
      rw [writeAt_self] at hsi ⊢
      exact hopenB hsi
    · rw [writeAt_ne _ _ _ _ hip] at hsi ⊢
      exact hO i hi hsi
  · intro i hi
    by_cases hip : i = pid
    · subst hip
      rw [writeAt_self]
      exact hac
    · rw [writeAt_ne _ _ _ _ hip, countApprove_snoc_ne _ _ _ _ _ hip]
      exact hA i hi
  · intro i hi
    by_cases hip : i = pid
    · subst hip
      rw [writeAt_self]
      exact hrc
    · rw [writeAt_ne _ _ _ _ hip, countReject_snoc_ne _ _ _ _ _ hip]
      exact hR i hi
  · intro i hi
    by_cases hip : i = pid
    · subst hip
      rw [writeAt_self]
      rcases hstate with hs | hs <;> simp [hmc, hs]
    · rw [writeAt_ne _ _ _ _ hip]
      exact hM i hi
  · intro i hi
    by_cases hip : i = pid
    · subst hip
      rw [writeAt_self]
      rcases hstate with hs | hs <;> simp [hs]
    · rw [writeAt_ne _ _ _ _ hip]
      exact hRej i hi

theorem vote_ok_guards (st : ChainState) (sender pid : Nat) (approve : Bool)
    (res : ChainState × List Event)
    (h : vote st sender pid approve = Except.ok res) :
    pid < st.proposalCount ∧ isReviewer st.reg sender = true ∧
      hasVoted st pid sender = false ∧
      (st.proposals pid).state = ProposalState.Open := by
  by_cases h1 : pid < st.proposalCount
  swap
  · simp [vote, h1] at h
  by_cases h2 : isReviewer st.reg sender = true
  swap
  · simp [vote, h1, h2] at h
  by_cases h3 : hasVoted st pid sender = true
  · simp [vote, h1, h2, h3] at h
  by_cases h4 : (st.proposals pid).state = ProposalState.Open
  swap
  · simp [vote, h1, h2, h3, h4] at h
  exact ⟨h1, h2, by simpa using h3, h4⟩

theorem vote_eq_ok (st : ChainState) (sender pid : Nat) (approve : Bool)
    (h1 : pid < st.proposalCount) (h2 : isReviewer st.reg sender = true)
    (h3 : hasVoted st pid sender = false)
    (h4 : (st.proposals pid).state = ProposalState.Open) :
    vote st sender pid approve =
      Except.ok (voteResult st sender pid approve) := by
  simp only [vote, voteResult, h1, h2, h3, h4, if_true, Bool.false_eq_true,
    if_false]
  rw [apply_ite (Except.ok : ChainState × List Event →
    Except Err (ChainState × List Event))]

theorem inv_vote (st : ChainState) (sender pid : Nat) (approve : Bool)
    (res : ChainState × List Event) (hInv : Inv st)
    (h : vote st sender pid approve = Except.ok res) : Inv res.1 := by
  obtain ⟨hpid, hrev, hvoted, hopen⟩ :=
    vote_ok_guards st sender pid approve res h
  rw [vote_eq_ok st sender pid approve hpid hrev hvoted hopen] at h
  have hres : res = voteResult st sender pid approve :=
    (Except.ok.inj h).symm
  subst hres
  have hMc : (st.proposals pid).mergedCommitHash = "" := by
    by_contra hne
    have := (hInv.mergedIff pid hpid).mp hne
    rw [hopen] at this
    exact ProposalState.noConfusion this
  have hAc := hInv.approvalAcc pid hpid
  have hRc := hInv.rejectionAcc pid hpid
  rw [voteResult]
  split
  case isTrue hap =>
    subst hap
    split
    case isTrue hflip =>
      dsimp only
      apply inv_vote_final st sender pid true _ hInv hpid hvoted
      · left
        rfl
      · intro hcontra
        exact ProposalState.noConfusion hcontra
      · rw [countApprove_snoc]
        simp [hAc]
      · rw [countReject_snoc]
        simp [hRc]
      · exact hMc
    case isFalse hflip =>
      dsimp only
      apply inv_vote_final st sender pid true _ hInv hpid hvoted
      · right
        exact hopen
      · intro _
        exact Nat.lt_of_not_le hflip
      · rw [countApprove_snoc]
        simp [hAc]
      · rw [countReject_snoc]
        simp [hRc]
      · exact hMc
  case isFalse hap =>
    rw [Bool.not_eq_true] at hap
    subst hap
    split
    case isTrue hflip =>
      dsimp only
      apply inv_vote_final st sender pid false _ hInv hpid hvoted
      · left
        rfl
      · intro hcontra
        exact ProposalState.noConfusion hcontra
      · rw [countApprove_snoc]
        simp [hAc]
      · rw [countReject_snoc]
        simp [hRc]
      · exact hMc
    case isFalse hflip =>
      dsimp only
      apply inv_vote_final st sender pid false _ hInv hpid hvoted
      · right
        exact hopen
      · intro _
        exact Nat.lt_of_not_le hflip
      · rw [countApprove_snoc]
        simp [hAc]
      · rw [countReject_snoc]
        simp [hRc]
      · exact hMc

theorem inv_recordMerge (st : ChainState) (sender pid : Nat) (h : String)
    (res : ChainState × List Event) (hInv : Inv st)
    (heq : recordMerge st sender pid h = Except.ok res) : Inv res.1 := by
  unfold recordMerge at heq
  split at heq
  case isFalse => exact Except.noConfusion heq
  case isTrue hpid =>
  split at heq
  case isTrue hemp =>
    dsimp only at heq
    split at heq <;> simp at heq
  case isFalse hne =>
  dsimp only at heq
  split at heq
  case isFalse => exact Except.noConfusion heq
  case isTrue hAppr =>
  cases heq
  dsimp only
  obtain ⟨hThr, hB, hN, hO, hA, hR, hM, hRej⟩ := hInv
  constructor <;> dsimp only
  · exact hThr
  · exact hB
  · exact hN
  · intro i hi hsi
    by_cases hip : i = pid
    · subst hip
      rw [writeAt_self] at hsi
      exact absurd hsi (by simp)
    · rw [writeAt_ne _ _ _ _ hip] at hsi ⊢
      exact hO i hi hsi
  · intro i hi
    by_cases hip : i = pid
    · subst hip
      rw [writeAt_self]
      exact hA _ hpid
    · rw [writeAt_ne _ _ _ _ hip]
      exact hA i hi
  · intro i hi
    by_cases hip : i = pid
    · subst hip
      rw [writeAt_self]
      exact hR _ hpid
    · rw [writeAt_ne _ _ _ _ hip]
      exact hR i hi
  · intro i hi
    by_cases hip : i = pid
    · subst hip
      rw [writeAt_self]
      simpa using hne
    · rw [writeAt_ne _ _ _ _ hip]
      exact hM i hi
  · intro i hi
    by_cases hip : i = pid
    · subst hip
      rw [writeAt_self]
      simp
    · rw [writeAt_ne _ _ _ _ hip]
      exact hRej i hi

theorem inv_step (st : ChainState) (op : Op) (hInv : Inv st) :
    Inv (step st op).1 := by
  cases op with
  | register s w n k =>
      cases h : registerReviewer st.reg s w n k with
      | ok r =>
          obtain ⟨r1, evs⟩ := r
          simp only [step, h]
          exact inv_regOnly st r1 hInv
      | error e =>
          simp only [step, h]
          exact hInv
  | deactivate s w =>
      cases h : removeReviewer st.reg s w with
      | ok r =>
          obtain ⟨r1, evs⟩ := r
          simp only [step, h]
          exact inv_regOnly st r1 hInv
      | error e =>
          simp only [step, h]
          exact hInv
  | create s r b c d =>
      cases h : createProposal st s r b c d with
      | ok r2 =>
          obtain ⟨id2, st2, evs2⟩ := r2
          simp only [step, h]
          exact inv_create st s r b c d (id2, st2, evs2) hInv h
      | error e =>
          simp only [step, h]
          exact hInv
  | castVote s pid a =>
      cases h : vote st s pid a with
      | ok r =>
          obtain ⟨st2, evs2⟩ := r
          simp only [step, h]
          exact inv_vote st s pid a (st2, evs2) hInv h
      | error e =>
          simp only [step, h]
          exact hInv
  | record s pid mh =>
      cases h : recordMerge st s pid mh with
      | ok r =>
          obtain ⟨st2, evs2⟩ := r
          simp only [step, h]
          exact inv_recordMerge st s pid mh (st2, evs2) hInv h
      | error e =>
          simp only [step, h]
          exact hInv

theorem inv_run (st : ChainState) (ops : List Op) (hInv : Inv st) :
    Inv (run st ops) := by
  induction ops generalizing st with
  | nil => exact hInv
  | cons op ops ih =>
      rw [run, List.foldl_cons]
      exact ih (step st op).1 (inv_step st op hInv)

theorem inv_reachable (st : ChainState) (h : reachable st) : Inv st := by
  obtain ⟨owner, threshold, ops, hthr, rfl⟩ := h
  exact inv_run (initState owner threshold) ops (inv_init owner threshold hthr)

theorem createProposal_ok_shape (st : ChainState) (sender : Nat)
    (repoId branchName commitHash description : String)
    (res : Nat × ChainState × List Event)
    (h : createProposal st sender repoId branchName commitHash description =
      Except.ok res) :
    repoId ≠ "" ∧ branchName ≠ "" ∧ commitHash ≠ "" ∧
    res = (st.proposalCount,
      { st with
          proposalCount := st.proposalCount + 1
          proposals := writeAt st.proposals st.proposalCount
            { id := st.proposalCount, repoId := repoId
              branchName := branchName, commitHash := commitHash
              description := description, proposer := sender
              state := ProposalState.Open, approvalCount := 0
              rejectionCount := 0, mergedCommitHash := "" } },
      [Event.ProposalCreated st.proposalCount sender branchName commitHash]) := by
  unfold createProposal at h
  split at h
  case isTrue => exact Except.noConfusion h
  split at h
  case isTrue => exact Except.noConfusion h
  split at h
  case isTrue => exact Except.noConfusion h
  cases h
  exact ⟨by assumption, by assumption, by assumption, rfl⟩

theorem recordMerge_ok_shape (st : ChainState) (sender pid : Nat)
    (mh : String) (res : ChainState × List Event)
    (h : recordMerge st sender pid mh = Except.ok res) :
    pid < st.proposalCount ∧
    (st.proposals pid).state = ProposalState.Approved ∧ mh ≠ "" ∧
    res = ({ st with
        proposals := writeAt st.proposals pid
          { st.proposals pid with
              state := ProposalState.Merged, mergedCommitHash := mh } },
      [Event.MergeRecorded pid mh]) := by
  unfold recordMerge at h
  split at h
  case isFalse => exact Except.noConfusion h
  case isTrue hpid =>
  split at h
  case isTrue hemp =>
    dsimp only at h
    split at h <;> simp at h
  case isFalse hne =>
  dsimp only at h
  split at h
  case isFalse => exact Except.noConfusion h
  case isTrue hAppr =>
  cases h
  exact ⟨hpid, hAppr, hne, rfl⟩

theorem recordMerge_eq_ok (st : ChainState) (sender pid : Nat) (mh : String)
    (hpid : pid < st.proposalCount)
    (hAppr : (st.proposals pid).state = ProposalState.Approved)
    (hne : mh ≠ "") :
    recordMerge st sender pid mh =
      Except.ok ({ st with
          proposals := writeAt st.proposals pid
            { st.proposals pid with
                state := ProposalState.Merged, mergedCommitHash := mh } },
        [Event.MergeRecorded pid mh]) := by
  simp [recordMerge, hpid, hAppr, hne]

theorem registerReviewer_ok_shape (st : RegistryState) (sender wallet : Nat)
    (name publicKey : String) (res : RegistryState × List Event)
    (h : registerReviewer st sender wallet name publicKey = Except.ok res) :
    sender = st.owner ∧ wallet ≠ 0 ∧ name ≠ "" ∧
    (st.agents wallet).isActive = false ∧
    res = ({ st with
        agents := writeAt st.agents wallet
          { name := name, publicKey := publicKey, isActive := true }
        reviewerList := st.reviewerList ++ [wallet] },
      [Event.ReviewerRegistered wallet name]) := by
  unfold registerReviewer at h
  split at h
  case isFalse => exact Except.noConfusion h
  case isTrue howner =>
  split at h
  case isTrue => exact Except.noConfusion h
  case isFalse hw =>
  split at h
  case isTrue => exact Except.noConfusion h
  case isFalse hn =>
  split at h
  case isTrue => exact Except.noConfusion h
  case isFalse hact =>
  cases h
  exact ⟨howner, hw, hn, by simpa using hact, rfl⟩

theorem removeReviewer_ok_shape (st : RegistryState) (sender wallet : Nat)
    (res : RegistryState × List Event)
    (h : removeReviewer st sender wallet = Except.ok res) :
    sender = st.owner ∧ (st.agents wallet).isActive = true ∧
    res = ({ st with
        agents := writeAt st.agents wallet
          { st.agents wallet with isActive := false } },
      [Event.ReviewerRemoved wallet]) := by
  unfold removeReviewer at h
  split at h
  case isFalse => exact Except.noConfusion h
  case isTrue howner =>
  split at h
  case isFalse => exact Except.noConfusion h
  case isTrue hact =>
  cases h
  exact ⟨howner, hact, rfl⟩

theorem voteResult_votes (st : ChainState) (sender pid : Nat)
    (approve : Bool) :
    (voteResult st sender pid approve).1.votes =
      st.votes ++ [(pid, sender, approve)] := by
  unfold voteResult
  split <;> (dsimp only; split <;> rfl)

theorem voteResult_count (st : ChainState) (sender pid : Nat)
    (approve : Bool) :
    (voteResult st sender pid approve).1.proposalCount = st.proposalCount := by
  unfold voteResult
  split <;> (dsimp only; split <;> rfl)

theorem voteResult_proposals_ne (st : ChainState) (sender pid : Nat)
    (approve : Bool) (i : Nat) (h : i ≠ pid) :
    (voteResult st sender pid approve).1.proposals i = st.proposals i := by
  unfold voteResult
  split <;> (dsimp only; split <;> (dsimp only; rw [writeAt_ne _ _ _ _ h]))

theorem stateOf_congr (st1 st2 : ChainState) (i : Nat)
    (hc : st2.proposalCount = st1.proposalCount)
    (hp : i < st1.proposalCount → st2.proposals i = st1.proposals i) :
    stateOf st2 i = stateOf st1 i := by
  unfold stateOf
  rw [hc]
  split
  case isTrue hlt => rw [hp hlt]
  case isFalse => rfl

theorem step_votes_grow (st : ChainState) (op : Op) :
    ∃ l, (step st op).1.votes = st.votes ++ l := by
  cases op with
  | register s w n k =>
      cases h : registerReviewer st.reg s w n k with
      | ok r =>
          obtain ⟨r1, evs⟩ := r
          exact ⟨[], by simp [step, h]⟩
      | error e => exact ⟨[], by simp [step, h]⟩
  | deactivate s w =>
      cases h : removeReviewer st.reg s w with
      | ok r =>
          obtain ⟨r1, evs⟩ := r
          exact ⟨[], by simp [step, h]⟩
      | error e => exact ⟨[], by simp [step, h]⟩
  | create s r b c d =>
      cases h : createProposal st s r b c d with
      | ok r2 =>
          obtain ⟨-, -, -, hres⟩ :=
            createProposal_ok_shape st s r b c d r2 h
          refine ⟨[], ?_⟩
          simp only [step, h, hres]
          simp
      | error e => exact ⟨[], by simp [step, h]⟩
  | castVote s pid a =>
      cases h : vote st s pid a with
      | ok r =>
          obtain ⟨st2, evs2⟩ := r
          obtain ⟨h1, h2, h3, h4⟩ := vote_ok_guards st s pid a (st2, evs2) h
          have hst2 : st2 = (voteResult st s pid a).1 := by
            have hvr := vote_eq_ok st s pid a h1 h2 h3 h4
            rw [h] at hvr
            exact congrArg Prod.fst (Except.ok.inj hvr)
          refine ⟨[(pid, s, a)], ?_⟩
          simp only [step, h]
          rw [hst2, voteResult_votes]
      | error e => exact ⟨[], by simp [step, h]⟩
  | record s pid mh =>
      cases h : recordMerge st s pid mh with
      | ok r =>
          obtain ⟨-, -, -, hres⟩ := recordMerge_ok_shape st s pid mh r h
          refine ⟨[], ?_⟩
          simp only [step, h, hres]
          simp
      | error e => exact ⟨[], by simp [step, h]⟩

theorem stateOf_step (st : ChainState) (op : Op) (i : Nat) :
    stateOf (step st op).1 i = stateOf st i ∨
    (stateOf st i = some ProposalState.Open ∧
      stateOf (step st op).1 i = some ProposalState.Approved) ∨
    (stateOf st i = some ProposalState.Approved ∧
      stateOf (step st op).1 i = some ProposalState.Merged) ∨
    (stateOf st i = none ∧
      stateOf (step st op).1 i = some ProposalState.Open) := by
  cases op with
  | register s w n k =>
      left
      cases h : registerReviewer st.reg s w n k with
      | ok r =>
          obtain ⟨r1, evs⟩ := r
          simp only [step, h]
          exact stateOf_congr st _ i rfl (fun _ => rfl)
      | error e => simp [step, h]
  | deactivate s w =>
      left
      cases h : removeReviewer st.reg s w with
      | ok r =>
          obtain ⟨r1, evs⟩ := r
          simp only [step, h]
          exact stateOf_congr st _ i rfl (fun _ => rfl)
      | error e => simp [step, h]
  | create s r b c d =>
      cases h : createProposal st s r b c d with
      | ok r2 =>
          obtain ⟨-, -, -, hres⟩ :=
            createProposal_ok_shape st s r b c d r2 h
          simp only [step, h, hres]
          by_cases hlt : i < st.proposalCount
          · left
            unfold stateOf
            dsimp only
            rw [if_pos hlt, if_pos (Nat.lt_succ_of_lt hlt),
              writeAt_ne _ _ _ _ (Nat.ne_of_lt hlt)]
          · by_cases heq2 : i = st.proposalCount
            · subst heq2
              right; right; right
              unfold stateOf
              dsimp only
              rw [if_neg (lt_irrefl _), if_pos (Nat.lt_succ_self _),
                writeAt_self]
              exact ⟨rfl, rfl⟩
            · left
              unfold stateOf
              dsimp only
              rw [if_neg hlt, if_neg]
              intro hcon
              rcases Nat.lt_succ_iff_lt_or_eq.mp hcon with hx | hx
              · exact hlt hx
              · exact heq2 hx
      | error e => left; simp [step, h]
  | castVote s pid a =>
      cases h : vote st s pid a with
      | ok r =>
          obtain ⟨st2, evs2⟩ := r
          obtain ⟨h1, h2, h3, h4⟩ := vote_ok_guards st s pid a (st2, evs2) h
          have hst2 : st2 = (voteResult st s pid a).1 := by
            have hvr := vote_eq_ok st s pid a h1 h2 h3 h4
            rw [h] at hvr
            exact congrArg Prod.fst (Except.ok.inj hvr)
          simp only [step, h]
          rw [hst2]
          by_cases hip : i = pid
          swap
          · left
            exact stateOf_congr st _ i (voteResult_count st s pid a)
              (fun _ => voteResult_proposals_ne st s pid a i hip)
          subst hip
          have hopen : stateOf st i = some ProposalState.Open := by
            unfold stateOf
            rw [if_pos h1, h4]
          unfold voteResult
          split
          next hap =>
            subst hap
            dsimp only
            split
            next hflip =>
              right; left
              refine ⟨hopen, ?_⟩
              unfold stateOf
              dsimp only
              rw [if_pos h1, writeAt_self]
            next hflip =>
              left
              unfold stateOf
              dsimp only
              rw [if_pos h1, if_pos h1, writeAt_self, h4]
          next hap =>
            rw [Bool.not_eq_true] at hap
            subst hap
            dsimp only
            split
            next hflip =>
              right; left
              refine ⟨hopen, ?_⟩
              unfold stateOf
              dsimp only
              rw [if_pos h1, writeAt_self]
            next hflip =>
              left
              unfold stateOf
              dsimp only
              rw [if_pos h1, if_pos h1, writeAt_self, h4]
      | error e => left; simp [step, h]
  | record s pid mh =>
      cases h : recordMerge st s pid mh with
      | ok r =>
          obtain ⟨hpid, hAppr, -, hres⟩ := recordMerge_ok_shape st s pid mh r h
          simp only [step, h, hres]
          by_cases hip : i = pid
          swap
          · left
            refine stateOf_congr st _ i rfl (fun _ => ?_)
            exact writeAt_ne _ _ _ _ hip
          subst hip
          right; right; left
          constructor
          · unfold stateOf
            rw [if_pos hpid, hAppr]
          · unfold stateOf
            dsimp only
            rw [if_pos hpid, writeAt_self]
      | error e => left; simp [step, h]

theorem merged_frozen (st : ChainState) (pid : Nat) (op : Op)
    (hpid : pid < st.proposalCount)
    (hm : (st.proposals pid).state = ProposalState.Merged) :
    (step st op).1.proposals pid = st.proposals pid := by
  cases op with
  | register s w n k =>
      cases h : registerReviewer st.reg s w n k with
      | ok r =>
          obtain ⟨r1, evs⟩ := r
          simp [step, h]
      | error e => simp [step, h]
  | deactivate s w =>
      cases h : removeReviewer st.reg s w with
      | ok r =>
          obtain ⟨r1, evs⟩ := r
          simp [step, h]
      | error e => simp [step, h]
  | create s r b c d =>
      cases h : createProposal st s r b c d with
      | ok r2 =>
          obtain ⟨-, -, -, hres⟩ :=
            createProposal_ok_shape st s r b c d r2 h
          simp only [step, h, hres]
          exact writeAt_ne _ _ _ _ (Nat.ne_of_lt hpid)
      | error e => simp [step, h]
  | castVote s pid2 a =>
      cases h : vote st s pid2 a with
      | ok r =>
          obtain ⟨st2, evs2⟩ := r
          obtain ⟨h1, h2, h3, h4⟩ := vote_ok_guards st s pid2 a (st2, evs2) h
          have hst2 : st2 = (voteResult st s pid2 a).1 := by
            have hvr := vote_eq_ok st s pid2 a h1 h2 h3 h4
            rw [h] at hvr
            exact congrArg Prod.fst (Except.ok.inj hvr)
          simp only [step, h]
          rw [hst2]
          have hip : pid ≠ pid2 := by
            intro hcon
            subst hcon
            rw [hm] at h4
            exact ProposalState.noConfusion h4
          exact voteResult_proposals_ne st s pid2 a pid hip
      | error e => simp [step, h]
  | record s pid2 mh =>
      cases h : recordMerge st s pid2 mh with
      | ok r =>
          obtain ⟨hpid2, hAppr, -, hres⟩ :=
            recordMerge_ok_shape st s pid2 mh r h
          simp only [step, h, hres]
          have hip : pid ≠ pid2 := by
            intro hcon
            subst hcon
            rw [hm] at hAppr
            exact ProposalState.noConfusion hAppr
          exact writeAt_ne _ _ _ _ hip
      | error e => simp [step, h]

theorem voteResult_self_approval (st : ChainState) (s pid : Nat) (a : Bool) :
    ((voteResult st s pid a).1.proposals pid).approvalCount =
      (st.proposals pid).approvalCount + (if a then 1 else 0) := by
  unfold voteResult
  split
  next hap =>
    subst hap
    dsimp only
    split <;> (dsimp only; rw [writeAt_self])
  next hap =>
    rw [Bool.not_eq_true] at hap
    subst hap
    dsimp only
    split <;> (dsimp only; rw [writeAt_self]; simp)

theorem voteResult_self_rejection (st : ChainState) (s pid : Nat) (a : Bool) :
    ((voteResult st s pid a).1.proposals pid).rejectionCount =
      (st.proposals pid).rejectionCount + (if a then 0 else 1) := by
  unfold voteResult
  split
  next hap =>
    subst hap
    dsimp only
    split <;> (dsimp only; rw [writeAt_self]; simp)
  next hap =>
    rw [Bool.not_eq_true] at hap
    subst hap
    dsimp only
    split <;> (dsimp only; rw [writeAt_self])

theorem voteResult_flip_iff (st : ChainState) (s pid : Nat) (a : Bool)
    (hopen : (st.proposals pid).state = ProposalState.Open) :
    (((voteResult st s pid a).1.proposals pid).state =
        ProposalState.Approved ∧
      Event.MergeApproved pid (st.proposals pid).branchName
        (st.proposals pid).commitHash ∈ (voteResult st s pid a).2) ↔
      st.approvalThreshold ≤
        ((voteResult st s pid a).1.proposals pid).approvalCount := by
  unfold voteResult
  split
  next hap =>
    subst hap
    dsimp only
    split
    next hflip =>
      dsimp only
      rw [writeAt_self]
      simp [hflip]
    next hflip =>
      dsimp only
      rw [writeAt_self]
      simp [hopen, hflip]
  next hap =>
    rw [Bool.not_eq_true] at hap
    subst hap
    dsimp only
    split
    next hflip =>
      dsimp only
      rw [writeAt_self]
      simp [hflip]
    next hflip =>
      dsimp only
      rw [writeAt_self]
      simp [hopen, hflip]

/-- C1: for an Open proposal and an active reviewer who has not yet voted,
a successful `vote` records the `(proposalId, voter)` pair, increments the
matching counter, and flips the state to Approved emitting `MergeApproved`
exactly when the new `approvalCount` reaches `approvalThreshold`;
consequently no reachable state has an Open proposal whose `approvalCount`
is at or above the threshold. -/
theorem vote_threshold_atomic (st : ChainState) (sender pid : Nat)
    (approve : Bool) (hreach : reachable st) :
    ((pid < st.proposalCount → isReviewer st.reg sender = true →
      hasVoted st pid sender = false →
      (st.proposals pid).state = ProposalState.Open →
      VoteOutcome st sender pid approve)) ∧
    (∀ i, i < st.proposalCount →
      (st.proposals i).state = ProposalState.Open →
      (st.proposals i).approvalCount < st.approvalThreshold) := by
  constructor
  · intro hpid hrev hvd hopen
    have hvr := vote_eq_ok st sender pid approve hpid hrev hvd hopen
    refine ⟨(voteResult st sender pid approve).1,
      (voteResult st sender pid approve).2, hvr, ?_, ?_, ?_, ?_⟩
    · simp [hasVoted, voteResult_votes]
    · exact voteResult_self_approval st sender pid approve
    · exact voteResult_self_rejection st sender pid approve
    · exact voteResult_flip_iff st sender pid approve hopen
  · exact (inv_reachable st hreach).openBelow

/-- Witness for C1 at the concrete Open proposal of `stA`, voted on by
reviewer 1. -/
theorem vote_threshold_atomic_witness :
    reachable stA ∧ VoteOutcome stA 1 0 true := by
  have hreach : reachable stA := ⟨0, 2, opsA, by decide, rfl⟩
  exact ⟨hreach,
    (vote_threshold_atomic stA 1 0 true hreach).1 (by decide) (by decide)
      (by decide) (by decide)⟩

/-- C2 counterexample: in a reachable state whose proposal 0 is Approved,
`recordMerge` with an empty `mergedCommit` still fails (with
`InvalidInput`), so success is not equivalent to `state = Approved`
alone. -/
theorem recordMerge_iff_counterexample :
    (stB.proposals 0).state = ProposalState.Approved ∧
    recordMerge stB 0 0 "" = Except.error Err.InvalidInput := by
  exact ⟨by decide, rfl⟩

/-- C2 (amended): `recordMerge` succeeds iff the proposal is Approved at
call time and the supplied `mergedCommit` is non-empty; a second call on
the same proposal after a success always fails with `NotApproved`. -/
theorem recordMerge_succeeds_iff (st : ChainState) (sender pid : Nat)
    (mh : String) (hpid : pid < st.proposalCount) :
    ((∃ r, recordMerge st sender pid mh = Except.ok r) ↔
      ((st.proposals pid).state = ProposalState.Approved ∧ mh ≠ "")) ∧
    (∀ r sender2 mh2, recordMerge st sender pid mh = Except.ok r →
      recordMerge r.1 sender2 pid mh2 = Except.error Err.NotApproved) := by
  constructor
  · constructor
    · rintro ⟨r, hr⟩
      obtain ⟨-, hAppr, hne, -⟩ := recordMerge_ok_shape st sender pid mh r hr
      exact ⟨hAppr, hne⟩
    · rintro ⟨hAppr, hne⟩
      exact ⟨_, recordMerge_eq_ok st sender pid mh hpid hAppr hne⟩
  · intro r sender2 mh2 hr
    obtain ⟨-, hAppr, hne, hres⟩ := recordMerge_ok_shape st sender pid mh r hr
    subst hres
    simp [recordMerge, hpid, writeAt_self]

/-- Witness for C2 (amended) on the Approved proposal of `stB`. -/
theorem recordMerge_succeeds_iff_witness :
    (∃ r, recordMerge stB 0 0 "m9" = Except.ok r) :=
  (recordMerge_succeeds_iff stB 0 0 "m9" (by decide)).1.mpr
    ⟨by decide, by decide⟩

/-- C3 counterexample: in a reachable state whose proposal 0 is already
Merged, the bridge handler still invokes the version-control merge — it
does not skip. -/
theorem bridge_skip_counterexample :
    (stC.proposals 0).state = ProposalState.Merged ∧
    BridgeAction.merge "repo" "feature" ∈
      (bridgeOnMergeApproved stC 0 "feature" (some "m2")).2 := by
  exact ⟨by decide, by decide⟩

/-- C3 (amended): the bridge handler never checks the proposal state: for
every in-range proposal it invokes the version-control merge regardless of
state, even when the proposal is already Merged; in that case only the
subsequent `recordMerge` reverts (caught by the handler), leaving the
ledger unchanged. -/
theorem bridge_merge_unconditional (st : ChainState) (pid : Nat)
    (branchName : String) (mres : Option String)
    (hpid : pid < st.proposalCount) :
    BridgeAction.merge (st.proposals pid).repoId branchName ∈
      (bridgeOnMergeApproved st pid branchName mres).2 ∧
    ((st.proposals pid).state = ProposalState.Merged →
      (bridgeOnMergeApproved st pid branchName mres).1 = st) := by
  have hget : getProposal st pid = Except.ok (st.proposals pid) := by
    simp [getProposal, hpid]
  cases mres with
  | none =>
      simp only [bridgeOnMergeApproved, hget]
      exact ⟨by simp, by simp⟩
  | some mh =>
      simp only [bridgeOnMergeApproved, hget]
      constructor
      · cases hr : recordMerge st 0 pid mh with
        | ok r =>
            obtain ⟨r1, evs⟩ := r
            simp [hr]
        | error e => simp [hr]
      · intro hm
        have hrec : recordMerge st 0 pid mh = Except.error Err.NotApproved := by
          simp [recordMerge, hpid, hm]
        rw [hrec]

/-- Witness for C3 (amended) on the Merged proposal of `stC`. -/
theorem bridge_merge_unconditional_witness :
    BridgeAction.merge (stC.proposals 0).repoId "feature" ∈
      (bridgeOnMergeApproved stC 0 "feature" (some "m2")).2 ∧
    (bridgeOnMergeApproved stC 0 "feature" (some "m2")).1 = stC :=
  ⟨(bridge_merge_unconditional stC 0 "feature" (some "m2") (by decide)).1,
   (bridge_merge_unconditional stC 0 "feature" (some "m2") (by decide)).2
     (by decide)⟩

/-- C4: in every reachable state, the counters of each proposal equal the
number of recorded approve/reject votes for it, no `(proposal, voter)`
pair is recorded twice, and no operation ever removes or changes a
recorded vote (the vote log only grows). -/
theorem counters_match_votes (st : ChainState) (hreach : reachable st) :
    (∀ pid, pid < st.proposalCount →
      (st.proposals pid).approvalCount = countApprove st.votes pid ∧
      (st.proposals pid).rejectionCount = countReject st.votes pid) ∧
    (st.votes.map (fun v => (v.1, v.2.1))).Nodup ∧
    (∀ op, ∃ l, (step st op).1.votes = st.votes ++ l) := by
  have hInv := inv_reachable st hreach
  exact ⟨fun pid hpid =>
    ⟨hInv.approvalAcc pid hpid, hInv.rejectionAcc pid hpid⟩,
    hInv.voteNodup, step_votes_grow st⟩

/-- Witness for C4 in state `stB` (two approve votes on proposal 0). -/
theorem counters_match_votes_witness :
    (stB.proposals 0).approvalCount = countApprove stB.votes 0 ∧
    (stB.votes.map (fun v => (v.1, v.2.1))).Nodup :=
  ⟨((counters_match_votes stB ⟨0, 2, opsB, by decide, rfl⟩).1 0
      (by decide)).1,
   (counters_match_votes stB ⟨0, 2, opsB, by decide, rfl⟩).2.1⟩

/-- C5: every transaction either leaves the state of a proposal unchanged,
moves it Open to Approved, moves it Approved to Merged, or creates it as
Open; and no reachable state holds a Rejected proposal. -/
theorem state_monotonic :
    (∀ st op i,
      stateOf (step st op).1 i = stateOf st i ∨
      (stateOf st i = some ProposalState.Open ∧
        stateOf (step st op).1 i = some ProposalState.Approved) ∨
      (stateOf st i = some ProposalState.Approved ∧
        stateOf (step st op).1 i = some ProposalState.Merged) ∨
      (stateOf st i = none ∧
        stateOf (step st op).1 i = some ProposalState.Open)) ∧
    (∀ st i, reachable st → stateOf st i ≠ some ProposalState.Rejected) := by
  constructor
  · exact stateOf_step
  · intro st i hreach hcon
    have hInv := inv_reachable st hreach
    unfold stateOf at hcon
    by_cases hi : i < st.proposalCount
    · rw [if_pos hi] at hcon
      exact hInv.notRejected i hi (Option.some.inj hcon)
    · rw [if_neg hi] at hcon
      exact Option.noConfusion hcon

/-- Witness for C5: one step from `stA`, and `stA` holds no Rejected
proposal. -/
theorem state_monotonic_witness :
    (stateOf (step stA (Op.castVote 1 0 true)).1 0 = stateOf stA 0 ∨
      (stateOf stA 0 = some ProposalState.Open ∧
        stateOf (step stA (Op.castVote 1 0 true)).1 0 =
          some ProposalState.Approved) ∨
      (stateOf stA 0 = some ProposalState.Approved ∧
        stateOf (step stA (Op.castVote 1 0 true)).1 0 =
          some ProposalState.Merged) ∨
      (stateOf stA 0 = none ∧
        stateOf (step stA (Op.castVote 1 0 true)).1 0 =
          some ProposalState.Open)) ∧
    stateOf stA 0 ≠ some ProposalState.Rejected :=
  ⟨state_monotonic.1 stA (Op.castVote 1 0 true) 0,
   state_monotonic.2 stA 0 ⟨0, 2, opsA, by decide, rfl⟩⟩

/-- C6: in every reachable state, `mergedCommitHash` is non-empty iff the
proposal is Merged, and once non-empty no operation ever changes the
proposal again (so it is set exactly once). -/
theorem mergedCommit_iff_merged (st : ChainState) (pid : Nat)
    (hreach : reachable st) (hpid : pid < st.proposalCount) :
    ((st.proposals pid).mergedCommitHash ≠ "" ↔
      (st.proposals pid).state = ProposalState.Merged) ∧
    ((st.proposals pid).mergedCommitHash ≠ "" →
      ∀ op, (step st op).1.proposals pid = st.proposals pid) := by
  have hInv := inv_reachable st hreach
  refine ⟨hInv.mergedIff pid hpid, fun hne op => ?_⟩
  exact merged_frozen st pid op hpid ((hInv.mergedIff pid hpid).mp hne)

/-- Witness for C6 on the Merged proposal of `stC`. -/
theorem mergedCommit_iff_merged_witness :
    ((stC.proposals 0).mergedCommitHash ≠ "" ↔
      (stC.proposals 0).state = ProposalState.Merged) ∧
    (step stC (Op.castVote 1 0 true)).1.proposals 0 = stC.proposals 0 :=
  ⟨(mergedCommit_iff_merged stC 0 ⟨0, 2, opsC, by decide, rfl⟩
      (by decide)).1,
   (mergedCommit_iff_merged stC 0 ⟨0, 2, opsC, by decide, rfl⟩
      (by decide)).2 (by decide) (Op.castVote 1 0 true)⟩

/-- C7: `vote` rejects with `NotFound` on an out-of-range id, with
`NotAReviewer` for a non-reviewer, with `AlreadyVoted` for a repeat voter,
with `NotOpen` when the proposal is not Open (guards in contract order),
and every rejected call leaves the ledger state unchanged and emits
nothing. -/
theorem vote_error_cases (st : ChainState) (sender pid : Nat)
    (approve : Bool) :
    (st.proposalCount ≤ pid →
      vote st sender pid approve = Except.error Err.NotFound) ∧
    (pid < st.proposalCount → isReviewer st.reg sender = false →
      vote st sender pid approve = Except.error Err.NotAReviewer) ∧
    (pid < st.proposalCount → isReviewer st.reg sender = true →
      hasVoted st pid sender = true →
      vote st sender pid approve = Except.error Err.AlreadyVoted) ∧
    (pid < st.proposalCount → isReviewer st.reg sender = true →
      hasVoted st pid sender = false →
      (st.proposals pid).state ≠ ProposalState.Open →
      vote st sender pid approve = Except.error Err.NotOpen) ∧
    (∀ e, vote st sender pid approve = Except.error e →
      step st (Op.castVote sender pid approve) = (st, [])) := by
  refine ⟨?_, ?_, ?_, ?_, ?_⟩
  · intro h
    simp [vote, Nat.not_lt.mpr h]
  · intro hpid hrev
    simp [vote, hpid, hrev]
  · intro hpid hrev hvd
    simp [vote, hpid, hrev, hvd]
  · intro hpid hrev hvd hopen
    simp [vote, hpid, hrev, hvd, hopen]
  · intro e he
    simp [step, he]

/-- Witness for C7: the out-of-range case at `stA`. -/
theorem vote_error_cases_witness :
    stA.proposalCount ≤ 5 ∧
    vote stA 1 5 true = Except.error Err.NotFound :=
  ⟨by decide, (vote_error_cases stA 1 5 true).1 (by decide)⟩

/-- C8: `createProposal` rejects with `InvalidInput` when `repoId`,
`branchName` or `commitHash` is empty; otherwise, for any sender, it
returns the previous `proposalCount` as the new id, stores a fresh Open
proposal with zero counts and empty `mergedCommitHash`, and increments
`proposalCount`. -/
theorem createProposal_spec (st : ChainState) (sender : Nat)
    (repoId branchName commitHash description : String) :
    ((repoId = "" ∨ branchName = "" ∨ commitHash = "") →
      createProposal st sender repoId branchName commitHash description =
        Except.error Err.InvalidInput) ∧
    (repoId ≠ "" → branchName ≠ "" → commitHash ≠ "" →
      createProposal st sender repoId branchName commitHash description =
        Except.ok (st.proposalCount,
          { st with
              proposalCount := st.proposalCount + 1
              proposals := writeAt st.proposals st.proposalCount
                { id := st.proposalCount, repoId := repoId
                  branchName := branchName, commitHash := commitHash
                  description := description, proposer := sender
                  state := ProposalState.Open, approvalCount := 0
                  rejectionCount := 0, mergedCommitHash := "" } },
          [Event.ProposalCreated st.proposalCount sender branchName
            commitHash])) := by
  constructor
  · rintro (h | h | h) <;> simp [createProposal, h]
  · intro h1 h2 h3
    simp [createProposal, h1, h2, h3]

/-- Witness for C8: a successful creation by non-reviewer wallet 9 in
`stA`. -/
theorem createProposal_spec_witness :
    createProposal stA 9 "r2" "b2" "c2" "d2" =
      Except.ok (stA.proposalCount,
        { stA with
            proposalCount := stA.proposalCount + 1
            proposals := writeAt stA.proposals stA.proposalCount
              { id := stA.proposalCount, repoId := "r2", branchName := "b2"
                commitHash := "c2", description := "d2", proposer := 9
                state := ProposalState.Open, approvalCount := 0
                rejectionCount := 0, mergedCommitHash := "" } },
        [Event.ProposalCreated stA.proposalCount 9 "b2" "c2"]) :=
  (createProposal_spec stA 9 "r2" "b2" "c2" "d2").2 (by decide) (by decide)
    (by decide)

/-- C9: `registerReviewer` rejects non-owner callers with `Unauthorized`,
the zero wallet or an empty name with `InvalidInput`, a currently active
wallet with `AlreadyRegistered` (guards in contract order); otherwise —
including for a previously deactivated wallet — it stores an active
record and appends the wallet to the historical reviewer list. -/
theorem registerReviewer_spec (st : RegistryState) (sender wallet : Nat)
    (name publicKey : String) :
    (sender ≠ st.owner →
      registerReviewer st sender wallet name publicKey =
        Except.error Err.Unauthorized) ∧
    (sender = st.owner → wallet = 0 →
      registerReviewer st sender wallet name publicKey =
        Except.error Err.InvalidInput) ∧
    (sender = st.owner → wallet ≠ 0 → name = "" →
      registerReviewer st sender wallet name publicKey =
        Except.error Err.InvalidInput) ∧
    (sender = st.owner → wallet ≠ 0 → name ≠ "" →
      (st.agents wallet).isActive = true →
      registerReviewer st sender wallet name publicKey =
        Except.error Err.AlreadyRegistered) ∧
    (sender = st.owner → wallet ≠ 0 → name ≠ "" →
      (st.agents wallet).isActive = false →
      registerReviewer st sender wallet name publicKey =
        Except.ok ({ st with
            agents := writeAt st.agents wallet
              { name := name, publicKey := publicKey, isActive := true }
            reviewerList := st.reviewerList ++ [wallet] },
          [Event.ReviewerRegistered wallet name])) := by
  refine ⟨?_, ?_, ?_, ?_, ?_⟩
  · intro h
    simp [registerReviewer, h]
  · intro howner h
    simp [registerReviewer, howner, h]
  · intro howner hw h
    simp [registerReviewer, howner, hw, h]
  · intro howner hw hn h
    simp [registerReviewer, howner, hw, hn, h]
  · intro howner hw hn h
    simp [registerReviewer, howner, hw, hn, h]

/-- Witness for C9: re-registering the deactivated reviewer 1 in `regD`
succeeds and appends it to the historical list again. -/
theorem registerReviewer_spec_witness :
    (regD.agents 1).isActive = false ∧
    registerReviewer regD 0 1 "Alice2" "pk9" =
      Except.ok ({ regD with
          agents := writeAt regD.agents 1
            { name := "Alice2", publicKey := "pk9", isActive := true }
          reviewerList := regD.reviewerList ++ [1] },
        [Event.ReviewerRegistered 1 "Alice2"]) :=
  ⟨by decide,
   (registerReviewer_spec regD 0 1 "Alice2" "pk9").2.2.2.2 (by decide)
     (by decide) (by decide) (by decide)⟩

/-- C10: for every out-of-range proposal id in a reachable state the query
`hasVoted` never fails and returns `false`, while `getProposal` and `vote`
both reject the same id with `NotFound`. -/
theorem hasVoted_out_of_range (st : ChainState) (pid voter : Nat)
    (hreach : reachable st) (hout : st.proposalCount ≤ pid) :
    hasVoted st pid voter = false ∧
    getProposal st pid = Except.error Err.NotFound ∧
    (∀ sender approve,
      vote st sender pid approve = Except.error Err.NotFound) := by
  have hInv := inv_reachable st hreach
  refine ⟨?_, ?_, ?_⟩
  · rw [hasVoted, List.any_eq_false]
    intro v hv
    have hb := hInv.voteBound v hv
    simp only [Bool.and_eq_true, beq_iff_eq]
    rintro ⟨rfl, -⟩
    exact absurd hout (Nat.not_le.mpr hb)
  · simp [getProposal, Nat.not_lt.mpr hout]
  · intro sender approve
    simp [vote, Nat.not_lt.mpr hout]

/-- Witness for C10 at the nonexistent proposal 7 of `stB`. -/
theorem hasVoted_out_of_range_witness :
    hasVoted stB 7 1 = false ∧
    getProposal stB 7 = Except.error Err.NotFound :=
  ⟨(hasVoted_out_of_range stB 7 1 ⟨0, 2, opsB, by decide, rfl⟩
      (by decide)).1,
   (hasVoted_out_of_range stB 7 1 ⟨0, 2, opsB, by decide, rfl⟩
      (by decide)).2.1⟩

end Gitchain
